import Mathlib

/-!
# Sharp memory LCD driver (`sharp_lcd.c`, `sharp_lcd.h`)

A shallow embedding of the driver and theorems about it.

Modelling conventions.

* `uint8_t` and `uint16_t` values are natural numbers; a store into a `uint8_t`
  object is followed by `% 256`.
* The memory `frame_buffer` points to is a `List Nat` held in the descriptor.  An access
  outside the list is undefined behaviour in C and is the error `Err.outOfBounds` here.
* The two function pointers of `sharp_lcd_spi_interface_t` are opaque handles; a call through
  one of them is recorded as an `Event` in the trace an operation returns.
* The `for` loop of `sharp_lcd_draw` has a `uint8_t` counter, so it is run with fuel; running
  out of fuel is the error `Err.outOfFuel`.
* `sharp_lcd_set_pixel` evaluates its index expression in a 32-bit `int`
  (`SHARP_LCD_GET_X_Y_BUFFER_INDEX_int32`); a signed overflow is undefined behaviour in C and
  is the error `Err.intOverflow` here.  `SHARP_LCD_GET_X_Y_BUFFER_INDEX` is the value of the
  same expression over the natural numbers.
* A sequence of calls on one descriptor is a `List Op` run by `run_ops`.
* The order in which the bit-fields of `sharp_lcd_command_t` are allocated inside the byte is
  implementation-defined in C; it is the parameter `BitFieldOrder` of the operations that
  assign to a bit-field.  GCC and Clang allocate from the low-order end on little-endian
  targets (x86, ARM), so the command bytes of the compiled driver are those of
  `BitFieldOrder.lowToHigh`; the bytes for `BitFieldOrder.highToLow`, the order in which the
  union agrees with the `SHARP_LCD_COMMAND_*` constants, are given in lemmas.
-/

namespace SharpLcd

/-! ## Types -/

/-- Opaque handles for the two function pointers of `sharp_lcd_spi_interface_t`. -/
structure sharp_lcd_spi_interface_t where
  write_function : Nat
  cs_function : Nat
deriving DecidableEq

/-- Driver object `sharp_lcd_t`; `frame_buffer` is the memory the pointer refers to. -/
structure sharp_lcd_t where
  width : Nat
  height : Nat
  frame_buffer : List Nat
  vcom : Bool
  spi_interface : sharp_lcd_spi_interface_t
deriving DecidableEq

/-- A call through the SPI abstraction: `cs_function(active)` or
`write_function(bytes, size)` with the `size` bytes that were passed. -/
inductive Event where
  | cs (active : Bool)
  | write (bytes : List Nat)
deriving DecidableEq

/-- Ways in which a run of the model stops without a result. -/
inductive Err where
  | outOfBounds
  | outOfFuel
  | intOverflow
deriving DecidableEq

/-- Allocation order of bit-fields within their byte (implementation-defined in C). -/
inductive BitFieldOrder where
  | highToLow
  | lowToHigh
deriving DecidableEq

/-! ## Macros -/

/-- Header macro `SHARP_LCD_CALC_BUFFER_SIZE(width, height)`: `(width / 8) * (height / 8)`. -/
def SHARP_LCD_CALC_BUFFER_SIZE (width height : Nat) : Nat :=
  (width / 8) * (height / 8)

/-- Macro `SHARP_LCD_GET_X_Y_BUFFER_INDEX(x, y)`: the value of
`(y * instance->width / 8) + (x / 8)` over the natural numbers.  It is the value the C
expression has when no intermediate result leaves the range of `int`; the evaluation in
`int` is `SHARP_LCD_GET_X_Y_BUFFER_INDEX_int32`. -/
def SHARP_LCD_GET_X_Y_BUFFER_INDEX (width x y : Nat) : Nat :=
  (y * width / 8) + (x / 8)

/-- Largest value of a 32-bit `int`. -/
def INT_MAX : Nat := 2147483647

/-- The expression `(y * instance->width / 8) + (x / 8)` as C evaluates it when `int` has 32
bits: the `uint16_t` operands are promoted to `int`, the product `y * width` is formed first,
then divided by 8, then `x / 8` is added.  A result above `INT_MAX` is a signed overflow
(undefined behaviour): `none`. -/
def SHARP_LCD_GET_X_Y_BUFFER_INDEX_int32 (width x y : Nat) : Option Nat :=
  if y * width ≤ INT_MAX then
    if y * width / 8 + x / 8 ≤ INT_MAX then some (y * width / 8 + x / 8) else none
  else none

/-- Macro `SHARP_LCD_GET_LINE_OFFSET(line)`: `(instance->width / 8) * line`. -/
def SHARP_LCD_GET_LINE_OFFSET (width line : Nat) : Nat :=
  (width / 8) * line

/-- Macro `SHARP_LCD_LINE_SIZE_BYTES`: `(instance->width / 8)`. -/
def SHARP_LCD_LINE_SIZE_BYTES (width : Nat) : Nat :=
  width / 8

/-- Macro `SHARP_LCD_COMMAND_WRITE`. -/
def SHARP_LCD_COMMAND_WRITE : Nat := 0x01

/-- Macro `SHARP_LCD_COMMAND_CLEAR`. -/
def SHARP_LCD_COMMAND_CLEAR : Nat := 0x04

/-- Macro `SHARP_LCD_COMMAND_VCOM`. -/
def SHARP_LCD_COMMAND_VCOM : Nat := 0x02

/-- Macro `SHARP_LCD_VCOM_OFFSET` (defined in `sharp_lcd.c`, used by no function). -/
def SHARP_LCD_VCOM_OFFSET : Nat := 1

/-! ## The command union -/

/-- Bit position of `bits.vcom_bit` inside `sharp_lcd_command_t.byte`.  The struct declares
`reserved:4, unused_bit:1, clear_bit:1, vcom_bit:1, write_bit:1` in this order: allocated from
the high-order end `vcom_bit` is bit 1, allocated from the low-order end it is bit 6. -/
def vcom_bit_pos : BitFieldOrder → Nat
  | .highToLow => 1
  | .lowToHigh => 6

/-- Assignment `command.bits.vcom_bit = v` seen through `command.byte`. -/
def set_vcom_bit (ord : BitFieldOrder) (byte : Nat) (v : Bool) : Nat :=
  if v then (byte ||| (1 <<< vcom_bit_pos ord)) % 256
  else byte &&& (0xFF ^^^ (1 <<< vcom_bit_pos ord))

/-! ## Memory access -/

/-- Read of `len` bytes starting at `off`. -/
def read_bytes (buf : List Nat) (off len : Nat) : Except Err (List Nat) :=
  if off + len ≤ buf.length then .ok ((buf.drop off).take len) else .error .outOfBounds

/-- Read of the byte at `idx`. -/
def read_byte (buf : List Nat) (idx : Nat) : Except Err Nat :=
  match buf[idx]? with
  | some b => .ok b
  | none => .error .outOfBounds

/-- Store of `v` into the byte at `idx`. -/
def write_byte (buf : List Nat) (idx v : Nat) : Except Err (List Nat) :=
  if idx < buf.length then .ok (buf.set idx (v % 256)) else .error .outOfBounds

/-- Call `memset(buf, c, n)`. -/
def memset (buf : List Nat) (c n : Nat) : Except Err (List Nat) :=
  if n ≤ buf.length then .ok (List.replicate n (c % 256) ++ buf.drop n) else .error .outOfBounds

/-! ## Functions of `sharp_lcd.c` -/

/-- Function `sharp_lcd_init`.  It assigns `width`, `height`, `vcom` and `frame_buffer` and
leaves `spi_interface` as it was: `spi` is the content that member had before the call. -/
def sharp_lcd_init (spi : sharp_lcd_spi_interface_t) (width height : Nat)
    (frame_buffer : List Nat) : sharp_lcd_t :=
  { width := width, height := height, frame_buffer := frame_buffer, vcom := false,
    spi_interface := spi }

/-- Function `sharp_lcd_set_spi_interface`. -/
def sharp_lcd_set_spi_interface (inst : sharp_lcd_t)
    (spi_interface : sharp_lcd_spi_interface_t) : sharp_lcd_t :=
  { inst with spi_interface := spi_interface }

/-- The byte index and the bit index `sharp_lcd_set_pixel` addresses for `(x, y)`, over the
natural numbers. -/
def pixel_location (width x y : Nat) : Nat × Nat :=
  (SHARP_LCD_GET_X_Y_BUFFER_INDEX width x y, x % 8)

/-- Function `sharp_lcd_set_pixel`.  The index is the macro evaluated in `int`; a signed
overflow in it is `Err.intOverflow`.  The inactive branch computes `mask` and does not use
it: the byte is and-ed with `(1 << x % 8)`. -/
def sharp_lcd_set_pixel (inst : sharp_lcd_t) (x y : Nat) (active : Bool) :
    Except Err (sharp_lcd_t × List Event) :=
  match SHARP_LCD_GET_X_Y_BUFFER_INDEX_int32 inst.width x y with
  | none => .error .intOverflow
  | some idx => do
    let bit := x % 8
    let old ← read_byte inst.frame_buffer idx
    if active then
      let buf ← write_byte inst.frame_buffer idx (old ||| (1 <<< bit))
      pure ({ inst with frame_buffer := buf }, [])
    else
      let _mask := 0xFF ^^^ (1 <<< bit)
      let buf ← write_byte inst.frame_buffer idx (old &&& (1 <<< bit))
      pure ({ inst with frame_buffer := buf }, [])

/-- Function `sharp_lcd_clear_display`. -/
def sharp_lcd_clear_display (ord : BitFieldOrder) (inst : sharp_lcd_t) :
    Except Err (sharp_lcd_t × List Event) := do
  let command := set_vcom_bit ord SHARP_LCD_COMMAND_CLEAR inst.vcom
  let payload := [command, 0]
  let trace := [Event.cs true, Event.write payload, Event.cs false]
  let buf ← memset inst.frame_buffer 0xFF
    (SHARP_LCD_CALC_BUFFER_SIZE inst.width inst.height)
  pure ({ inst with frame_buffer := buf }, trace)

/-- Function `sharp_lcd_toggle_vcom`. -/
def sharp_lcd_toggle_vcom (ord : BitFieldOrder) (inst : sharp_lcd_t) :
    Except Err (sharp_lcd_t × List Event) :=
  let inst1 := { inst with vcom := !inst.vcom }
  let command := set_vcom_bit ord SHARP_LCD_COMMAND_VCOM inst1.vcom
  let payload := [command, 0]
  .ok (inst1, [Event.cs true, Event.write payload, Event.cs false])

/-- The loop `for (uint8_t i = 0; i < instance->height; i++)` of `sharp_lcd_draw`, started
at counter value `i` with the calls made so far in `trace`.  One unit of fuel pays for one
evaluation of the loop condition. -/
def draw_loop (inst : sharp_lcd_t) : Nat → Nat → List Event → Except Err (List Event)
  | 0, _, _ => .error .outOfFuel
  | fuel + 1, i, trace =>
    if i < inst.height then
      let line_number := (i + 1) % 256
      match read_bytes inst.frame_buffer (SHARP_LCD_GET_LINE_OFFSET inst.width i)
          (SHARP_LCD_LINE_SIZE_BYTES inst.width) with
      | .error e => .error e
      | .ok row =>
        draw_loop inst fuel ((i + 1) % 256)
          (trace ++ [Event.write [line_number], Event.write row, Event.write [0]])
    else .ok trace

/-- Function `sharp_lcd_draw`; `sizeof(sharp_lcd_command_t)` is 1. -/
def sharp_lcd_draw (fuel : Nat) (inst : sharp_lcd_t) :
    Except Err (sharp_lcd_t × List Event) := do
  let trailer := 0
  let command := SHARP_LCD_COMMAND_WRITE
  let trace := [Event.cs true, Event.write [command]]
  let trace ← draw_loop inst fuel 0 trace
  pure (inst, trace ++ [Event.write [trailer], Event.cs false])

/-! ## Specification-side definitions -/

/-- The `width/8` buffer bytes at offsets `(width/8)*i .. (width/8)*i + width/8 - 1`. -/
def row_bytes_spec (width : Nat) (buf : List Nat) (i : Nat) : List Nat :=
  (List.range (width / 8)).map (fun j => buf.getD ((width / 8) * i + j) 0)

/-- The three writes of row `i`: line number `i + 1`, the row bytes, a zero trailer. -/
def row_events_spec (width : Nat) (buf : List Nat) (i : Nat) : List Event :=
  [Event.write [i + 1], Event.write (row_bytes_spec width buf i), Event.write [0x00]]

/-- The call sequence of a full-frame transaction in the words of the specification:
chip-select, header `[0x01]`, the rows `0 .. height-1` in ascending order, the final trailer
`[0x00]`, chip-select released. -/
def draw_trace_spec (width height : Nat) (buf : List Nat) : List Event :=
  [Event.cs true, Event.write [0x01]]
    ++ (List.range height).flatMap (row_events_spec width buf)
    ++ [Event.write [0x00], Event.cs false]

/-! ## Concrete descriptors used in the examples -/

/-- Some pair of function-pointer handles. -/
def example_spi : sharp_lcd_spi_interface_t := ⟨0, 1⟩

/-- An 8 x 2 panel whose pixel (3, 0) is set. -/
def panel_8x2 : sharp_lcd_t := ⟨8, 2, [0x08, 0x00], false, example_spi⟩

/-- An 8 x 1 panel with every bit of its one byte set. -/
def panel_8x1_full : sharp_lcd_t := ⟨8, 1, [0xFF], false, example_spi⟩

/-- An 8 x 8 panel with an all-zero frame buffer and the given polarity. -/
def panel_8x8_zero (vcom : Bool) : sharp_lcd_t :=
  ⟨8, 8, [0, 0, 0, 0, 0, 0, 0, 0], vcom, example_spi⟩

/-- An 8 x 256 panel with an all-zero frame buffer of `(8/8) * 256` bytes. -/
def panel_8x256 : sharp_lcd_t := ⟨8, 256, List.replicate 256 0, false, example_spi⟩

/-- An 8 x 8 panel whose frame buffer has `SHARP_LCD_CALC_BUFFER_SIZE(8, 8) = 1` byte. -/
def panel_8x8_macro_sized : sharp_lcd_t := ⟨8, 8, [0x00], false, example_spi⟩

/-- A 65528 x 65535 panel; its frame buffer of `(65528/8) * 65535` bytes is a parameter. -/
def panel_65528x65535 (frame_buffer : List Nat) : sharp_lcd_t :=
  ⟨65528, 65535, frame_buffer, false, example_spi⟩

/-! ## Sequences of calls -/

/-- One call a user of the driver makes on an initialised descriptor. -/
inductive Op where
  | set_spi_interface (spi : sharp_lcd_spi_interface_t)
  | set_pixel (x y : Nat) (active : Bool)
  | clear_display
  | toggle_vcom
  | draw
deriving DecidableEq

/-- The effect of one call: the new descriptor and the transport calls it made. -/
def apply_op (ord : BitFieldOrder) (fuel : Nat) (inst : sharp_lcd_t) :
    Op → Except Err (sharp_lcd_t × List Event)
  | .set_spi_interface spi => .ok (sharp_lcd_set_spi_interface inst spi, [])
  | .set_pixel x y active => sharp_lcd_set_pixel inst x y active
  | .clear_display => sharp_lcd_clear_display ord inst
  | .toggle_vcom => sharp_lcd_toggle_vcom ord inst
  | .draw => sharp_lcd_draw fuel inst

/-- The calls of `ops` made one after the other; the traces are concatenated. -/
def run_ops (ord : BitFieldOrder) (fuel : Nat) :
    sharp_lcd_t → List Op → Except Err (sharp_lcd_t × List Event)
  | inst, [] => .ok (inst, [])
  | inst, op :: ops =>
    match apply_op ord fuel inst op with
    | .error e => .error e
    | .ok (inst1, trace1) =>
      match run_ops ord fuel inst1 ops with
      | .error e => .error e
      | .ok (inst2, trace2) => .ok (inst2, trace1 ++ trace2)

/-- Number of `sharp_lcd_toggle_vcom` calls in a sequence. -/
def toggle_count (ops : List Op) : Nat :=
  ops.count Op.toggle_vcom

/-- A call whose pixel coordinate, if it has one, is valid for a `width` x `height` panel. -/
def op_valid (width height : Nat) : Op → Bool
  | .set_pixel x y _ => decide (x < width) && decide (y < height)
  | _ => true

/-- One chip-select bracket: `cs(true)`, the writes of `payloads`, `cs(false)`. -/
def bracket (payloads : List (List Nat)) : List Event :=
  [Event.cs true] ++ payloads.map Event.write ++ [Event.cs false]

/-- A concatenation of chip-select brackets. -/
def brackets (bs : List (List (List Nat))) : List Event :=
  bs.flatMap bracket

/-- Chip-select discipline of a trace, read from left to right with the line `asserted` or
not: no write and no `cs(false)` while the line is released, no `cs(true)` while it is
asserted, and the line is released at the end. -/
def cs_discipline : Bool → List Event → Bool
  | asserted, [] => !asserted
  | false, Event.cs true :: rest => cs_discipline true rest
  | false, _ :: _ => false
  | true, Event.write _ :: rest => cs_discipline true rest
  | true, Event.cs false :: rest => cs_discipline false rest
  | true, Event.cs true :: _ => false

/-! ## Lemmas -/

/-- Under high-to-low allocation `vcom_bit` sits at `SHARP_LCD_VCOM_OFFSET` and its mask is
`SHARP_LCD_COMMAND_VCOM`: the layout the constants of `sharp_lcd.c` describe. -/
theorem vcom_bit_pos_highToLow :
    vcom_bit_pos .highToLow = SHARP_LCD_VCOM_OFFSET
      ∧ 1 <<< vcom_bit_pos .highToLow = SHARP_LCD_COMMAND_VCOM := by
  decide

theorem take_drop_eq_map_getD (buf : List Nat) (off len : Nat) (h : off + len ≤ buf.length) :
    (buf.drop off).take len = (List.range len).map (fun j => buf.getD (off + j) 0) := by
  apply List.ext_getElem
  · simp; omega
  · intro j h1 h2
    simp at h1 h2
    simp [List.getElem_take, List.getD_eq_getElem?_getD]
    rw [List.getElem?_eq_getElem (by omega)]
    simp

theorem read_bytes_row (inst : sharp_lcd_t) (i : Nat)
    (hbuf : inst.frame_buffer.length = (inst.width / 8) * inst.height) (hi : i < inst.height) :
    read_bytes inst.frame_buffer (SHARP_LCD_GET_LINE_OFFSET inst.width i)
      (SHARP_LCD_LINE_SIZE_BYTES inst.width)
      = .ok (row_bytes_spec inst.width inst.frame_buffer i) := by
  have hle : (inst.width / 8) * i + inst.width / 8 ≤ inst.frame_buffer.length := by
    rw [hbuf]
    calc (inst.width / 8) * i + inst.width / 8 = (inst.width / 8) * (i + 1) := by ring
      _ ≤ (inst.width / 8) * inst.height := Nat.mul_le_mul_left _ hi
  unfold read_bytes SHARP_LCD_GET_LINE_OFFSET SHARP_LCD_LINE_SIZE_BYTES row_bytes_spec
  rw [if_pos hle, take_drop_eq_map_getD _ _ _ hle]

/-- The loop started at counter `i` with `n` rows left appends exactly those rows. -/
theorem draw_loop_rows (inst : sharp_lcd_t) (hh : inst.height ≤ 255)
    (hbuf : inst.frame_buffer.length = (inst.width / 8) * inst.height) :
    ∀ (n i fuel : Nat) (trace : List Event), i + n = inst.height → n < fuel →
      draw_loop inst fuel i trace
        = .ok (trace ++ (List.range' i n).flatMap
            (row_events_spec inst.width inst.frame_buffer)) := by
  intro n
  induction n with
  | zero =>
    intro i fuel trace hi hf
    obtain ⟨f, rfl⟩ : ∃ f, fuel = f + 1 := ⟨fuel - 1, by omega⟩
    have : ¬ i < inst.height := by omega
    simp [draw_loop, this]
  | succ n ih =>
    intro i fuel trace hi hf
    obtain ⟨f, rfl⟩ : ∃ f, fuel = f + 1 := ⟨fuel - 1, by omega⟩
    have hlt : i < inst.height := by omega
    have hmod : (i + 1) % 256 = i + 1 := Nat.mod_eq_of_lt (by omega)
    unfold draw_loop
    rw [if_pos hlt, read_bytes_row inst i hbuf hlt]
    simp only [hmod]
    rw [ih (i + 1) f _ (by omega) (by omega)]
    simp [List.range'_succ, row_events_spec]

/-- For a width that is a multiple of 8 the macro's `y * width / 8` is `y * (width / 8)`. -/
theorem index_eq (width x y : Nat) (hw : width % 8 = 0) :
    SHARP_LCD_GET_X_Y_BUFFER_INDEX width x y = y * (width / 8) + x / 8 := by
  unfold SHARP_LCD_GET_X_Y_BUFFER_INDEX
  rw [Nat.mul_div_assoc y (Nat.dvd_of_mod_eq_zero hw)]

theorem index_lt (width height x y : Nat) (hw : width % 8 = 0) (hx : x < width)
    (hy : y < height) : y * (width / 8) + x / 8 < (width / 8) * height := by
  have h1 : x / 8 < width / 8 := by omega
  calc y * (width / 8) + x / 8 < y * (width / 8) + width / 8 := by omega
    _ = (width / 8) * (y + 1) := by ring
    _ ≤ (width / 8) * height := Nat.mul_le_mul_left _ hy

/-- When the index expression has a value in `int`, it is the value over the naturals. -/
theorem index_int32_some (width x y idx : Nat)
    (h : SHARP_LCD_GET_X_Y_BUFFER_INDEX_int32 width x y = some idx) :
    idx = SHARP_LCD_GET_X_Y_BUFFER_INDEX width x y ∧ y * width ≤ INT_MAX := by
  unfold SHARP_LCD_GET_X_Y_BUFFER_INDEX_int32 at h
  by_cases h1 : y * width ≤ INT_MAX
  · rw [if_pos h1] at h
    by_cases h2 : y * width / 8 + x / 8 ≤ INT_MAX
    · rw [if_pos h2] at h
      exact ⟨(Option.some.inj h).symm, h1⟩
    · rw [if_neg h2] at h; cases h
  · rw [if_neg h1] at h; cases h

/-- The index expression has a value in `int` when the product `y * width` fits and `x` is
a `uint16_t` value. -/
theorem index_int32_fits (width x y : Nat) (h : y * width ≤ INT_MAX) (hx : x < 65536) :
    SHARP_LCD_GET_X_Y_BUFFER_INDEX_int32 width x y
      = some (SHARP_LCD_GET_X_Y_BUFFER_INDEX width x y) := by
  have h2 : y * width / 8 + x / 8 ≤ INT_MAX := by
    unfold INT_MAX at *
    omega
  unfold SHARP_LCD_GET_X_Y_BUFFER_INDEX_int32 SHARP_LCD_GET_X_Y_BUFFER_INDEX
  rw [if_pos h, if_pos h2]

/-- A valid coordinate of a panel of at most 255 rows and a 16-bit width keeps the index
expression inside `int`. -/
theorem index_int32_small_panel (width height x y : Nat) (hw16 : width < 65536)
    (hh : height ≤ 255) (hx : x < width) (hy : y < height) :
    SHARP_LCD_GET_X_Y_BUFFER_INDEX_int32 width x y
      = some (SHARP_LCD_GET_X_Y_BUFFER_INDEX width x y) := by
  have hy2 : y ≤ 254 := by omega
  have hprod : y * width ≤ 254 * 65535 :=
    Nat.mul_le_mul hy2 (by omega)
  exact index_int32_fits width x y (by unfold INT_MAX; omega) (by omega)

/-- The byte and the bit `sharp_lcd_set_pixel` addresses are those of `pixel_location`
whenever the index expression has a value in `int`. -/
theorem index_int32_eq_pixel_location (width x y idx : Nat)
    (h : SHARP_LCD_GET_X_Y_BUFFER_INDEX_int32 width x y = some idx) :
    (idx, x % 8) = pixel_location width x y := by
  rw [(index_int32_some width x y idx h).1]
  rfl

/-- For width 65528 and row 32773 the index expression has no value in `int`. -/
theorem index_int32_none_65528_32773 :
    SHARP_LCD_GET_X_Y_BUFFER_INDEX_int32 65528 0 32773 = none := by
  decide

/-- A signed overflow in the index expression: the call has no defined result. -/
theorem set_pixel_overflow (inst : sharp_lcd_t) (x y : Nat) (active : Bool)
    (h : SHARP_LCD_GET_X_Y_BUFFER_INDEX_int32 inst.width x y = none) :
    sharp_lcd_set_pixel inst x y active = .error .intOverflow := by
  simp [sharp_lcd_set_pixel, h]

/-- The active branch of `sharp_lcd_set_pixel` on an addressable byte. -/
theorem set_pixel_active_eq (inst : sharp_lcd_t) (x y idx old : Nat)
    (hI : SHARP_LCD_GET_X_Y_BUFFER_INDEX_int32 inst.width x y = some idx)
    (h : inst.frame_buffer[idx]? = some old) :
    sharp_lcd_set_pixel inst x y true
      = .ok ({ inst with frame_buffer :=
                (inst.frame_buffer.set idx ((old ||| (1 <<< (x % 8))) % 256)) }, []) := by
  have hlt : idx < inst.frame_buffer.length := by
    by_contra hc
    rw [List.getElem?_eq_none (by omega)] at h
    cases h
  simp [sharp_lcd_set_pixel, hI, read_byte, write_byte, h, hlt, bind, Except.bind,
    pure, Except.pure]

/-- The inactive branch of `sharp_lcd_set_pixel` on an addressable byte. -/
theorem set_pixel_inactive_eq (inst : sharp_lcd_t) (x y idx old : Nat)
    (hI : SHARP_LCD_GET_X_Y_BUFFER_INDEX_int32 inst.width x y = some idx)
    (h : inst.frame_buffer[idx]? = some old) :
    sharp_lcd_set_pixel inst x y false
      = .ok ({ inst with frame_buffer :=
                (inst.frame_buffer.set idx ((old &&& (1 <<< (x % 8))) % 256)) }, []) := by
  have hlt : idx < inst.frame_buffer.length := by
    by_contra hc
    rw [List.getElem?_eq_none (by omega)] at h
    cases h
  simp [sharp_lcd_set_pixel, hI, read_byte, write_byte, h, hlt, bind, Except.bind,
    pure, Except.pure]

/-- On an addressable byte `sharp_lcd_set_pixel` returns, makes no transport call and
replaces that one byte; for an active pixel the new byte is `old | (1 << x % 8)`. -/
theorem set_pixel_in_bounds (inst : sharp_lcd_t) (x y idx : Nat) (active : Bool)
    (hI : SHARP_LCD_GET_X_Y_BUFFER_INDEX_int32 inst.width x y = some idx)
    (h : idx < inst.frame_buffer.length) :
    ∃ v, sharp_lcd_set_pixel inst x y active
        = .ok ({ inst with frame_buffer := (inst.frame_buffer.set idx v) }, [])
      ∧ (active = true → v = (inst.frame_buffer.getD idx 0 ||| (1 <<< (x % 8))) % 256) := by
  have hget : inst.frame_buffer[idx]? = some (inst.frame_buffer[idx]) :=
    List.getElem?_eq_getElem h
  cases active with
  | true =>
    refine ⟨_, set_pixel_active_eq inst x y idx _ hI hget, fun _ => ?_⟩
    simp [List.getD_eq_getElem?_getD, hget]
  | false =>
    exact ⟨_, set_pixel_inactive_eq inst x y idx _ hI hget, fun h => by cases h⟩

/-- Outside the buffer the access of `sharp_lcd_set_pixel` is out of bounds. -/
theorem set_pixel_out_of_bounds (inst : sharp_lcd_t) (x y idx : Nat) (active : Bool)
    (hI : SHARP_LCD_GET_X_Y_BUFFER_INDEX_int32 inst.width x y = some idx)
    (h : inst.frame_buffer.length ≤ idx) :
    sharp_lcd_set_pixel inst x y active = .error .outOfBounds := by
  have hget : inst.frame_buffer[idx]? = none := List.getElem?_eq_none h
  simp [sharp_lcd_set_pixel, hI, read_byte, hget, bind, Except.bind]

/-- The toggle transaction when bit-fields are allocated high-to-low. -/
theorem toggle_vcom_highToLow (inst : sharp_lcd_t) :
    sharp_lcd_toggle_vcom .highToLow inst
      = .ok ({ inst with vcom := !inst.vcom },
          [Event.cs true,
           Event.write [if (!inst.vcom) = true then 0x02 else 0x00, 0x00],
           Event.cs false]) := by
  obtain ⟨w, h, fb, v, spi⟩ := inst
  cases v <;> rfl

/-- The command bytes when bit-fields are allocated low-to-high: the polarity lands in bit 6
(`0x40`) and bit 1 keeps the value the command constant gave it, so the toggle command is
`0x42` or `0x02` and the clear command `0x44` or `0x04`. -/
theorem command_bytes_lowToHigh (inst : sharp_lcd_t) :
    sharp_lcd_toggle_vcom .lowToHigh inst
        = .ok ({ inst with vcom := !inst.vcom },
            [Event.cs true,
             Event.write [if (!inst.vcom) = true then 0x42 else 0x02, 0x00],
             Event.cs false])
      ∧ set_vcom_bit .lowToHigh SHARP_LCD_COMMAND_CLEAR inst.vcom
        = (if inst.vcom = true then 0x44 else 0x04) := by
  obtain ⟨w, h, fb, v, spi⟩ := inst
  cases v <;> constructor <;> rfl

/-- The toggle transaction when bit-fields are allocated low-to-high. -/
theorem toggle_vcom_lowToHigh (inst : sharp_lcd_t) :
    sharp_lcd_toggle_vcom .lowToHigh inst
      = .ok ({ inst with vcom := !inst.vcom },
          [Event.cs true,
           Event.write [if (!inst.vcom) = true then 0x42 else 0x02, 0x00],
           Event.cs false]) := by
  obtain ⟨w, h, fb, v, spi⟩ := inst
  cases v <;> rfl

/-! ## C1: the full-frame transaction -/

/-- C1 (confirmed).  For every descriptor whose height is at most 255 and whose frame buffer
has `(width/8) * height` bytes, `sharp_lcd_draw` (given more fuel than `height`) returns, leaves
the descriptor as it was, and issues exactly `cs(true)`, `write [0x01]`, then for each row
`i = 0 .. height-1` in ascending order `write [i+1]`, a write of the `width/8` buffer bytes at
offsets `(width/8)*i ..`, `write [0x00]`, then `write [0x00]`, `cs(false)`.  The header does
not depend on `vcom`, and for `height = 0` the writes are the header and the final trailer
only.  The width need not be a multiple of 8 for this. -/
theorem draw_trace (inst : sharp_lcd_t) (fuel : Nat) (hh : inst.height ≤ 255)
    (hbuf : inst.frame_buffer.length = (inst.width / 8) * inst.height)
    (hfuel : inst.height < fuel) :
    sharp_lcd_draw fuel inst
        = .ok (inst, draw_trace_spec inst.width inst.height inst.frame_buffer)
      ∧ (inst.height = 0 →
          sharp_lcd_draw fuel inst
            = .ok (inst, [Event.cs true, Event.write [0x01], Event.write [0x00],
                Event.cs false])) := by
  have key : sharp_lcd_draw fuel inst
      = .ok (inst, draw_trace_spec inst.width inst.height inst.frame_buffer) := by
    have hloop := draw_loop_rows inst hh hbuf inst.height 0 fuel
      [Event.cs true, Event.write [SHARP_LCD_COMMAND_WRITE]] (by omega) hfuel
    simp only [sharp_lcd_draw, hloop]
    simp [draw_trace_spec, List.range_eq_range', SHARP_LCD_COMMAND_WRITE, bind, Except.bind,
      pure, Except.pure]
  refine ⟨key, ?_⟩
  intro h0
  rw [key, h0]
  rfl

/-- C1 at the 8 x 2 panel with pixel (3, 0) set: the bytes `01 01 08 00 02 00 00 00`. -/
theorem draw_trace_witness :
    panel_8x2.height ≤ 255
      ∧ panel_8x2.frame_buffer.length = (panel_8x2.width / 8) * panel_8x2.height
      ∧ panel_8x2.height < 3
      ∧ sharp_lcd_draw 3 panel_8x2
          = .ok (panel_8x2,
              [Event.cs true, Event.write [0x01],
               Event.write [0x01], Event.write [0x08], Event.write [0x00],
               Event.write [0x02], Event.write [0x00], Event.write [0x00],
               Event.write [0x00], Event.cs false]) :=
  ⟨by decide, rfl, by decide, (draw_trace panel_8x2 3 (by decide) rfl (by decide)).1⟩

/-! ## C2 - C5: pixel addressing -/

/-- The active branch where the index expression stays inside `int`: for a width that is a
multiple of 8, a valid coordinate `(x, y)` with `x` a `uint16_t` value and
`y * width ≤ INT_MAX`, and a frame buffer of `(width/8) * height` bytes,
`sharp_lcd_set_pixel(x, y, true)` returns, makes no transport call, and replaces the byte
`old` at offset `y*(width/8) + x/8` by `old | (1 << (x mod 8))`: bit `x mod 8` of the new
byte is 1 and each of the other seven bits has the value it had. -/
theorem set_pixel_active_of_fits (inst : sharp_lcd_t) (x y : Nat)
    (hw : inst.width % 8 = 0) (hx : x < inst.width) (hy : y < inst.height)
    (hbuf : inst.frame_buffer.length = (inst.width / 8) * inst.height)
    (hx16 : x < 65536) (hfit : y * inst.width ≤ INT_MAX) :
    ∃ old new buf,
      inst.frame_buffer[y * (inst.width / 8) + x / 8]? = some old
      ∧ sharp_lcd_set_pixel inst x y true = .ok ({ inst with frame_buffer := buf }, [])
      ∧ buf[y * (inst.width / 8) + x / 8]? = some new
      ∧ new = (old ||| (1 <<< (x % 8))) % 256
      ∧ new < 256
      ∧ new.testBit (x % 8) = true
      ∧ ∀ j, j < 8 → j ≠ x % 8 → new.testBit j = old.testBit j := by
  have hlt : y * (inst.width / 8) + x / 8 < inst.frame_buffer.length := by
    rw [hbuf]; exact index_lt _ _ _ _ hw hx hy
  have hidx := index_eq inst.width x y hw
  have hI := index_int32_fits inst.width x y hfit hx16
  rw [hidx] at hI
  have hold : inst.frame_buffer[y * (inst.width / 8) + x / 8]?
      = some (inst.frame_buffer[y * (inst.width / 8) + x / 8]) :=
    List.getElem?_eq_getElem hlt
  refine ⟨inst.frame_buffer[y * (inst.width / 8) + x / 8], _,
    inst.frame_buffer.set (y * (inst.width / 8) + x / 8)
      ((inst.frame_buffer[y * (inst.width / 8) + x / 8] ||| (1 <<< (x % 8))) % 256),
    hold, ?_, ?_,
    rfl, Nat.mod_lt _ (by norm_num), ?_, ?_⟩
  · exact set_pixel_active_eq inst x y _ _ hI hold
  · simp [List.getElem?_set, hlt]
  · have h8 : x % 8 < 8 := Nat.mod_lt _ (by norm_num)
    rw [show (256 : Nat) = 2 ^ 8 from rfl, Nat.testBit_mod_two_pow, Nat.testBit_or,
      Nat.one_shiftLeft, Nat.testBit_two_pow]
    simp [h8]
  · intro j hj hne
    rw [show (256 : Nat) = 2 ^ 8 from rfl, Nat.testBit_mod_two_pow, Nat.testBit_or,
      Nat.one_shiftLeft, Nat.testBit_two_pow]
    simp [hj, Ne.symm hne]

/-- C2 (code defect).  On the 65528 x 65535 panel, whose width is a multiple of 8, the
coordinate (0, 32773) is valid and its byte is at offset `32773 * (65528/8) + 0/8`, that is
268443643.  `sharp_lcd_set_pixel(0, 32773, true)` does not set a bit of that byte: the
product `y * width` overflows `int`, whatever the frame buffer holds. -/
theorem set_pixel_active_index_overflows :
    65528 % 8 = 0 ∧ 0 < 65528 ∧ 32773 < 65535
      ∧ 32773 * (65528 / 8) + 0 / 8 = 268443643
      ∧ ∀ frame_buffer : List Nat,
          sharp_lcd_set_pixel (panel_65528x65535 frame_buffer) 0 32773 true
            = .error .intOverflow :=
  ⟨by decide, by decide, by decide, by decide,
    fun frame_buffer => set_pixel_overflow (panel_65528x65535 frame_buffer) 0 32773 true
      index_int32_none_65528_32773⟩

/-- C3 (code defect).  On the 8 x 1 panel whose byte is `0xFF`,
`sharp_lcd_set_pixel(3, 0, false)` leaves the byte `0x08 = 0xFF & (1 << 3)`, whereas the byte
and-ed with the complement of the mask is `0xF7`: the call keeps the addressed bit and clears
the seven others. -/
theorem set_pixel_inactive_keeps_only_target_bit :
    sharp_lcd_set_pixel panel_8x1_full 3 0 false
        = .ok ({ panel_8x1_full with frame_buffer := [0x08] }, [])
      ∧ 0xFF &&& (0xFF ^^^ (1 <<< (3 % 8))) = 0xF7 :=
  ⟨rfl, by decide⟩

/-- C4 (code defect).  On the 8 x 8 panel with an all-zero buffer, setting pixel (3, 0)
active and then inactive leaves byte 0 equal to `0x08`, not to its original value `0x00`. -/
theorem set_then_clear_not_restored :
    (sharp_lcd_set_pixel (panel_8x8_zero false) 3 0 true
        >>= fun r => sharp_lcd_set_pixel r.1 3 0 false)
      = .ok ({ panel_8x8_zero false with frame_buffer := [0x08, 0, 0, 0, 0, 0, 0, 0] }, []) :=
  rfl

/-- C5 (confirmed).  For a width that is a multiple of 8 and any height, the map
`pixel_location` from valid coordinates to (byte index, bit index) is injective, lands in
`{0 .. (width/8)*height - 1} x {0 .. 7}`, and reaches every pair of that range. -/
theorem pixel_location_bijective (width height : Nat) (hw : width % 8 = 0) :
    (∀ x y x' y', x < width → y < height → x' < width → y' < height →
        pixel_location width x y = pixel_location width x' y' → x = x' ∧ y = y')
    ∧ (∀ x y, x < width → y < height →
        (pixel_location width x y).1 < (width / 8) * height ∧ (pixel_location width x y).2 < 8)
    ∧ (∀ i b, i < (width / 8) * height → b < 8 →
        ∃ x y, x < width ∧ y < height ∧ pixel_location width x y = (i, b)) := by
  refine ⟨?_, ?_, ?_⟩
  · intro x y x' y' hx hy hx' hy' h
    simp only [pixel_location, index_eq _ _ _ hw, Prod.mk.injEq] at h
    obtain ⟨h1, h2⟩ := h
    have hq : x / 8 < width / 8 := by omega
    have hq' : x' / 8 < width / 8 := by omega
    have hy_eq : y = y' := by
      have e1 : (y * (width / 8) + x / 8) / (width / 8) = y := by
        rw [Nat.add_comm, Nat.add_mul_div_right _ _ (by omega), Nat.div_eq_of_lt hq, Nat.zero_add]
      have e2 : (y' * (width / 8) + x' / 8) / (width / 8) = y' := by
        rw [Nat.add_comm, Nat.add_mul_div_right _ _ (by omega), Nat.div_eq_of_lt hq',
          Nat.zero_add]
      rw [← e1, ← e2, h1]
    subst hy_eq
    constructor
    · omega
    · rfl
  · intro x y hx hy
    simp only [pixel_location, index_eq _ _ _ hw]
    exact ⟨index_lt _ _ _ _ hw hx hy, Nat.mod_lt _ (by norm_num)⟩
  · intro i b hi hb
    have hpos : 0 < width / 8 := by
      rcases Nat.eq_zero_or_pos (width / 8) with h0 | h0
      · rw [h0] at hi; simp at hi
      · exact h0
    have hmod : i % (width / 8) < width / 8 := Nat.mod_lt _ hpos
    refine ⟨8 * (i % (width / 8)) + b, i / (width / 8), by omega, ?_, ?_⟩
    · exact Nat.div_lt_of_lt_mul hi
    · simp only [pixel_location, index_eq _ _ _ hw, Prod.mk.injEq]
      constructor
      · have : (8 * (i % (width / 8)) + b) / 8 = i % (width / 8) := by omega
        rw [this, Nat.mul_comm]
        exact Nat.div_add_mod i (width / 8)
      · omega

/-- C5 at width 16, height 3: pixel (11, 2) lies in byte 5, bit 3, inside the 6-byte range,
and byte 5, bit 3 is the image of a valid coordinate. -/
theorem pixel_location_bijective_witness :
    16 % 8 = 0
      ∧ ((pixel_location 16 11 2).1 < (16 / 8) * 3 ∧ (pixel_location 16 11 2).2 < 8)
      ∧ ∃ x y, x < 16 ∧ y < 3 ∧ pixel_location 16 x y = (5, 3) :=
  ⟨by decide,
    (pixel_location_bijective 16 3 (by decide)).2.1 11 2 (by decide) (by decide),
    (pixel_location_bijective 16 3 (by decide)).2.2 5 3 (by decide) (by decide)⟩

/-! ## C6 - C7: buffer size and clearing -/

/-- C6 (code defect).  The header macro computes `(width/8) * (height/8)`: it gives 1 for
(8, 8), 6 for (16, 24) and 256 for (128, 128), where `(width/8) * height` is 8, 48 and
2048. -/
theorem calc_buffer_size_values :
    SHARP_LCD_CALC_BUFFER_SIZE 8 8 = 1 ∧ SHARP_LCD_CALC_BUFFER_SIZE 16 24 = 6
      ∧ SHARP_LCD_CALC_BUFFER_SIZE 128 128 = 256
      ∧ (8 / 8) * 8 = 8 ∧ (16 / 8) * 24 = 48 ∧ (128 / 8) * 128 = 2048 := by
  decide

/-- C7 (code defect).  On the 8 x 8 panel with an all-zero 8-byte buffer,
`sharp_lcd_clear_display` sets only byte 0 to `0xFF`; bytes 1 to 7 stay `0x00`. -/
theorem clear_display_fills_first_eighth :
    sharp_lcd_clear_display .highToLow (panel_8x8_zero false)
      = .ok ({ panel_8x8_zero false with frame_buffer := [0xFF, 0, 0, 0, 0, 0, 0, 0] },
          [Event.cs true, Event.write [0x04, 0x00], Event.cs false]) :=
  rfl

/-! ## C8 - C10: the clear and toggle transactions -/

/-- The clear transaction when bit-fields are allocated high-to-low: for both values of
`vcom` and a frame buffer of `(width/8) * height` bytes, `sharp_lcd_clear_display` returns and
issues exactly `cs(true)`, one write of `[0x04 | (vcom ? 0x02 : 0x00), 0x00]`, `cs(false)`;
byte 0 is `0x04` when `vcom` is false and `0x06` when it is true, and its bit `0x01` is
clear. -/
theorem clear_display_trace_highToLow (inst : sharp_lcd_t)
    (hbuf : inst.frame_buffer.length = (inst.width / 8) * inst.height) :
    ∃ buf, sharp_lcd_clear_display .highToLow inst
        = .ok ({ inst with frame_buffer := buf },
            [Event.cs true,
             Event.write [0x04 ||| (if inst.vcom then 0x02 else 0x00), 0x00],
             Event.cs false])
      ∧ (0x04 ||| (if inst.vcom then 0x02 else 0x00)) = (if inst.vcom then 0x06 else 0x04)
      ∧ (0x04 ||| (if inst.vcom then 0x02 else 0x00)) &&& 0x01 = 0x00 := by
  have hle : SHARP_LCD_CALC_BUFFER_SIZE inst.width inst.height ≤ inst.frame_buffer.length := by
    rw [hbuf]
    exact Nat.mul_le_mul_left _ (Nat.div_le_self _ _)
  refine ⟨List.replicate (SHARP_LCD_CALC_BUFFER_SIZE inst.width inst.height) 0xFF
    ++ inst.frame_buffer.drop (SHARP_LCD_CALC_BUFFER_SIZE inst.width inst.height), ?_, ?_, ?_⟩
  · simp only [sharp_lcd_clear_display, memset, if_pos hle, bind, Except.bind, pure, Except.pure]
    cases inst.vcom <;> rfl
  · cases inst.vcom <;> decide
  · cases inst.vcom <;> decide

/-- Two consecutive toggles when bit-fields are allocated high-to-low: the two command bytes
are `0x02` and `0x00` in one order or the other, so `b1 xor b2 = 0x02`. -/
theorem toggle_vcom_twice_xor_highToLow (inst : sharp_lcd_t) :
    ∃ inst1 inst2 b1 b2,
      sharp_lcd_toggle_vcom .highToLow inst
          = .ok (inst1, [Event.cs true, Event.write [b1, 0x00], Event.cs false])
      ∧ sharp_lcd_toggle_vcom .highToLow inst1
          = .ok (inst2, [Event.cs true, Event.write [b2, 0x00], Event.cs false])
      ∧ b1 ^^^ b2 = 0x02 := by
  refine ⟨_, _, _, _, toggle_vcom_highToLow inst, toggle_vcom_highToLow _, ?_⟩
  cases inst.vcom <;> simp

/-- C8 (code defect).  With bit-fields allocated low-to-high, `sharp_lcd_clear_display` on
the 8 x 8 panel with `vcom` true writes the payload `[0x44, 0x00]`: the assignment to
`bits.vcom_bit` sets bit 6, not the bit `0x02` of `SHARP_LCD_COMMAND_VCOM`, so byte 0 is not
`0x04 | 0x02 = 0x06`.  Allocated high-to-low the same call writes `[0x06, 0x00]`. -/
theorem clear_display_vcom_bit_misplaced :
    sharp_lcd_clear_display .lowToHigh (panel_8x8_zero true)
        = .ok ({ panel_8x8_zero true with frame_buffer := [0xFF, 0, 0, 0, 0, 0, 0, 0] },
            [Event.cs true, Event.write [0x44, 0x00], Event.cs false])
      ∧ SHARP_LCD_COMMAND_CLEAR ||| SHARP_LCD_COMMAND_VCOM = 0x06
      ∧ 0x44 ≠ 0x06
      ∧ sharp_lcd_clear_display .highToLow (panel_8x8_zero true)
        = .ok ({ panel_8x8_zero true with frame_buffer := [0xFF, 0, 0, 0, 0, 0, 0, 0] },
            [Event.cs true, Event.write [0x06, 0x00], Event.cs false]) :=
  ⟨rfl, by decide, by decide, rfl⟩

/-- C9 (confirmed, bit-fields allocated low-to-high).  For both values of the prior polarity
`sharp_lcd_toggle_vcom` returns, flips `vcom`, and issues exactly `cs(true)`, one write of
`[b, 0x00]`, `cs(false)`.  The byte `b` has the VCOM-command bit set, `b & 0x02 = 0x02`, and
is computed from the new polarity: `0x42` when the new polarity is true, `0x02` when it is
false. -/
theorem toggle_vcom_command_bit_set (inst : sharp_lcd_t) :
    ∃ b, sharp_lcd_toggle_vcom .lowToHigh inst
        = .ok ({ inst with vcom := !inst.vcom },
            [Event.cs true, Event.write [b, 0x00], Event.cs false])
      ∧ b &&& 0x02 = 0x02
      ∧ b = (if (!inst.vcom) = true then 0x42 else 0x02) := by
  refine ⟨_, toggle_vcom_lowToHigh inst, ?_, rfl⟩
  cases inst.vcom <;> decide

/-- C10 (code defect).  With bit-fields allocated low-to-high, the command bytes of two
consecutive calls of `sharp_lcd_toggle_vcom` are `0x42` and `0x02` in one order or the other
for every descriptor: they differ in bit 6, `b1 xor b2 = 0x40`, not in the VCOM bit
`0x02`. -/
theorem toggle_vcom_twice_xor_misplaced (inst : sharp_lcd_t) :
    ∃ inst1 inst2 b1 b2,
      sharp_lcd_toggle_vcom .lowToHigh inst
          = .ok (inst1, [Event.cs true, Event.write [b1, 0x00], Event.cs false])
      ∧ sharp_lcd_toggle_vcom .lowToHigh inst1
          = .ok (inst2, [Event.cs true, Event.write [b2, 0x00], Event.cs false])
      ∧ b1 ^^^ b2 = 0x40
      ∧ b1 ^^^ b2 ≠ 0x02 := by
  refine ⟨_, _, _, _, toggle_vcom_lowToHigh inst, toggle_vcom_lowToHigh _, ?_, ?_⟩
  · cases inst.vcom <;> simp
  · cases inst.vcom <;> simp

/-! ## Further lemmas -/

/-- With a height above 255 the counter of the row loop, which wraps at 256, stays below the
height: the loop uses up any amount of fuel. -/
theorem draw_loop_out_of_fuel (inst : sharp_lcd_t) (hh : 256 ≤ inst.height)
    (hbuf : inst.frame_buffer.length = (inst.width / 8) * inst.height) :
    ∀ (fuel i : Nat) (trace : List Event), i < 256 →
      draw_loop inst fuel i trace = .error .outOfFuel := by
  intro fuel
  induction fuel with
  | zero => intro i trace _; rfl
  | succ f ih =>
    intro i trace hi
    have hlt : i < inst.height := by omega
    unfold draw_loop
    rw [if_pos hlt, read_bytes_row inst i hbuf hlt]
    exact ih _ _ (Nat.mod_lt _ (by norm_num))

/-! ## Lemmas on draw and on sequences of calls -/

/-- The result of `sharp_lcd_draw` on a panel of at most 255 rows. -/
theorem sharp_lcd_draw_eq_spec (inst : sharp_lcd_t) (fuel : Nat) (hh : inst.height ≤ 255)
    (hbuf : inst.frame_buffer.length = (inst.width / 8) * inst.height)
    (hfuel : inst.height < fuel) :
    sharp_lcd_draw fuel inst
      = .ok (inst, draw_trace_spec inst.width inst.height inst.frame_buffer) := by
  have hloop := draw_loop_rows inst hh hbuf inst.height 0 fuel
    [Event.cs true, Event.write [SHARP_LCD_COMMAND_WRITE]] (by omega) hfuel
  simp only [sharp_lcd_draw, hloop]
  simp [draw_trace_spec, List.range_eq_range', SHARP_LCD_COMMAND_WRITE, bind, Except.bind,
    pure, Except.pure]

/-- The row loop only appends writes to the trace. -/
theorem draw_loop_appends_writes (inst : sharp_lcd_t) :
    ∀ (fuel i : Nat) (trace result : List Event), draw_loop inst fuel i trace = .ok result →
      ∃ payloads : List (List Nat), result = trace ++ payloads.map Event.write := by
  intro fuel
  induction fuel with
  | zero => intro i trace result h; simp [draw_loop] at h
  | succ f ih =>
    intro i trace result h
    unfold draw_loop at h
    by_cases hlt : i < inst.height
    · rw [if_pos hlt] at h
      cases hr : read_bytes inst.frame_buffer (SHARP_LCD_GET_LINE_OFFSET inst.width i)
          (SHARP_LCD_LINE_SIZE_BYTES inst.width) with
      | error e => rw [hr] at h; simp at h
      | ok row =>
        rw [hr] at h
        obtain ⟨ps, hps⟩ := ih _ _ _ h
        exact ⟨[(i + 1) % 256] :: row :: [0] :: ps, by simp [hps]⟩
    · rw [if_neg hlt] at h
      cases h
      exact ⟨[], by simp⟩

/-- A returning `sharp_lcd_draw` leaves the descriptor alone and its trace is one bracket. -/
theorem sharp_lcd_draw_sound (inst inst1 : sharp_lcd_t) (fuel : Nat) (trace : List Event)
    (h : sharp_lcd_draw fuel inst = .ok (inst1, trace)) :
    inst1 = inst ∧ ∃ payloads, payloads ≠ [] ∧ trace = bracket payloads := by
  unfold sharp_lcd_draw at h
  cases hl : draw_loop inst fuel 0 [Event.cs true, Event.write [SHARP_LCD_COMMAND_WRITE]] with
  | error e => simp [hl, bind, Except.bind] at h
  | ok t =>
    simp only [hl, bind, Except.bind, pure, Except.pure, Except.ok.injEq, Prod.mk.injEq] at h
    obtain ⟨ps, hps⟩ := draw_loop_appends_writes inst _ _ _ _ hl
    refine ⟨h.1.symm, [SHARP_LCD_COMMAND_WRITE] :: (ps ++ [[0]]), by simp, ?_⟩
    rw [← h.2, hps]
    simp [bracket]

/-- A returning `sharp_lcd_set_pixel` changes the buffer only, keeps its length and makes no
transport call. -/
theorem sharp_lcd_set_pixel_sound (inst inst1 : sharp_lcd_t) (x y : Nat) (active : Bool)
    (trace : List Event) (h : sharp_lcd_set_pixel inst x y active = .ok (inst1, trace)) :
    inst1.width = inst.width ∧ inst1.height = inst.height ∧ inst1.vcom = inst.vcom
      ∧ inst1.frame_buffer.length = inst.frame_buffer.length ∧ trace = [] := by
  cases hI : SHARP_LCD_GET_X_Y_BUFFER_INDEX_int32 inst.width x y with
  | none =>
    rw [set_pixel_overflow inst x y active hI] at h
    cases h
  | some idx =>
    by_cases hlt : idx < inst.frame_buffer.length
    · obtain ⟨v, hv, _⟩ := set_pixel_in_bounds inst x y idx active hI hlt
      rw [hv] at h
      simp only [Except.ok.injEq, Prod.mk.injEq] at h
      obtain ⟨h1, h2⟩ := h
      subst h1
      exact ⟨rfl, rfl, rfl, by simp, h2.symm⟩
    · rw [set_pixel_out_of_bounds inst x y idx active hI (by omega)] at h
      cases h

/-- A returning `sharp_lcd_clear_display` changes the buffer only, keeps its length and its
trace is one bracket. -/
theorem sharp_lcd_clear_display_sound (ord : BitFieldOrder) (inst inst1 : sharp_lcd_t)
    (trace : List Event) (h : sharp_lcd_clear_display ord inst = .ok (inst1, trace)) :
    inst1.width = inst.width ∧ inst1.height = inst.height ∧ inst1.vcom = inst.vcom
      ∧ inst1.frame_buffer.length = inst.frame_buffer.length
      ∧ ∃ payloads, payloads ≠ [] ∧ trace = bracket payloads := by
  unfold sharp_lcd_clear_display memset at h
  by_cases hle : SHARP_LCD_CALC_BUFFER_SIZE inst.width inst.height ≤ inst.frame_buffer.length
  · simp only [if_pos hle, bind, Except.bind, pure, Except.pure, Except.ok.injEq,
      Prod.mk.injEq] at h
    obtain ⟨h1, h2⟩ := h
    subst h1
    refine ⟨rfl, rfl, rfl, ?_, [[set_vcom_bit ord SHARP_LCD_COMMAND_CLEAR inst.vcom, 0]],
      by simp, ?_⟩
    · simp; omega
    · rw [← h2]; rfl
  · simp [if_neg hle, bind, Except.bind] at h

/-- Brackets obey the chip-select discipline. -/
theorem cs_discipline_writes (payloads : List (List Nat)) (rest : List Event) :
    cs_discipline true (payloads.map Event.write ++ Event.cs false :: rest)
      = cs_discipline false rest := by
  induction payloads with
  | nil => simp [cs_discipline]
  | cons p ps ih => simpa [cs_discipline] using ih

theorem cs_discipline_brackets (bs : List (List (List Nat))) :
    cs_discipline false (brackets bs) = true := by
  induction bs with
  | nil => simp [brackets, cs_discipline]
  | cons b bs ih =>
    have : brackets (b :: bs)
        = Event.cs true :: (b.map Event.write ++ Event.cs false :: brackets bs) := by
      simp [brackets, bracket]
    rw [this, cs_discipline, cs_discipline_writes, ih]

/-- What one returning call does to the descriptor and what its trace looks like. -/
theorem apply_op_sound (ord : BitFieldOrder) (fuel : Nat) (inst inst1 : sharp_lcd_t) (op : Op)
    (trace : List Event) (h : apply_op ord fuel inst op = .ok (inst1, trace)) :
    inst1.width = inst.width ∧ inst1.height = inst.height
      ∧ inst1.frame_buffer.length = inst.frame_buffer.length
      ∧ inst1.vcom = (if op = Op.toggle_vcom then !inst.vcom else inst.vcom)
      ∧ ∃ bs : List (List (List Nat)), (∀ b ∈ bs, b ≠ []) ∧ trace = brackets bs := by
  cases op with
  | set_spi_interface spi =>
    simp only [apply_op, Except.ok.injEq, Prod.mk.injEq] at h
    obtain ⟨h1, h2⟩ := h
    subst h1
    exact ⟨rfl, rfl, rfl, by simp [sharp_lcd_set_spi_interface], [], by simp,
      by simp [brackets, ← h2]⟩
  | set_pixel x y active =>
    obtain ⟨hw, hh, hv, hl, ht⟩ := sharp_lcd_set_pixel_sound inst inst1 x y active trace h
    exact ⟨hw, hh, hl, by simp [hv], [], by simp, by simp [brackets, ht]⟩
  | clear_display =>
    obtain ⟨hw, hh, hv, hl, ps, hps, ht⟩ := sharp_lcd_clear_display_sound ord inst inst1 trace h
    exact ⟨hw, hh, hl, by simp [hv], [ps], by simpa using hps, by simp [brackets, ht]⟩
  | toggle_vcom =>
    simp only [apply_op, sharp_lcd_toggle_vcom, Except.ok.injEq, Prod.mk.injEq] at h
    obtain ⟨h1, h2⟩ := h
    subst h1
    refine ⟨rfl, rfl, rfl, by simp,
      [[[set_vcom_bit ord SHARP_LCD_COMMAND_VCOM (!inst.vcom), 0]]], by simp, ?_⟩
    rw [← h2]; rfl
  | draw =>
    obtain ⟨h1, ps, hps, ht⟩ := sharp_lcd_draw_sound inst inst1 fuel trace h
    subst h1
    exact ⟨rfl, rfl, rfl, by simp, [ps], by simpa using hps, by simp [brackets, ht]⟩

/-- One call returns when the panel is well formed and the coordinate, if any, is valid. -/
theorem apply_op_returns (ord : BitFieldOrder) (fuel : Nat) (inst : sharp_lcd_t) (op : Op)
    (hw : inst.width % 8 = 0) (hw16 : inst.width < 65536) (hh : inst.height ≤ 255)
    (hfuel : inst.height < fuel)
    (hbuf : inst.frame_buffer.length = (inst.width / 8) * inst.height)
    (hop : op_valid inst.width inst.height op = true) :
    ∃ r, apply_op ord fuel inst op = .ok r := by
  cases op with
  | set_spi_interface spi => exact ⟨_, rfl⟩
  | set_pixel x y active =>
    simp only [op_valid, Bool.and_eq_true, decide_eq_true_eq] at hop
    have hlt : SHARP_LCD_GET_X_Y_BUFFER_INDEX inst.width x y < inst.frame_buffer.length := by
      rw [index_eq _ _ _ hw, hbuf]; exact index_lt _ _ _ _ hw hop.1 hop.2
    obtain ⟨v, hv, _⟩ := set_pixel_in_bounds inst x y _ active
      (index_int32_small_panel inst.width inst.height x y hw16 hh hop.1 hop.2) hlt
    exact ⟨_, hv⟩
  | clear_display =>
    have hle : SHARP_LCD_CALC_BUFFER_SIZE inst.width inst.height ≤ inst.frame_buffer.length := by
      rw [hbuf]; exact Nat.mul_le_mul_left _ (Nat.div_le_self _ _)
    refine ⟨({ inst with frame_buffer :=
        (List.replicate (SHARP_LCD_CALC_BUFFER_SIZE inst.width inst.height) (0xFF % 256)
          ++ inst.frame_buffer.drop (SHARP_LCD_CALC_BUFFER_SIZE inst.width inst.height)) },
      [Event.cs true, Event.write [set_vcom_bit ord SHARP_LCD_COMMAND_CLEAR inst.vcom, 0],
        Event.cs false]), ?_⟩
    simp only [apply_op, sharp_lcd_clear_display, memset, if_pos hle, bind,
      Except.bind, pure, Except.pure]
  | toggle_vcom => exact ⟨_, rfl⟩
  | draw => exact ⟨_, sharp_lcd_draw_eq_spec inst fuel hh hbuf hfuel⟩

/-- Parity bookkeeping for one more call in front of a sequence. -/
theorem toggle_parity_cons (v : Bool) (op : Op) (ops : List Op) :
    xor (if op = Op.toggle_vcom then !v else v) (decide (toggle_count ops % 2 = 1))
      = xor v (decide (toggle_count (op :: ops) % 2 = 1)) := by
  unfold toggle_count
  by_cases hop : op = Op.toggle_vcom
  · subst hop
    rcases Nat.mod_two_eq_zero_or_one (List.count Op.toggle_vcom ops) with h | h
    · have h2 : (List.count Op.toggle_vcom ops + 1) % 2 = 1 := by omega
      cases v <;> simp [h, h2]
    · have h2 : (List.count Op.toggle_vcom ops + 1) % 2 = 0 := by omega
      cases v <;> simp [h, h2]
  · have hne : ¬ (Op.toggle_vcom = op) := fun h => hop h.symm
    simp [hop, List.count_cons, hne]

/-- What a returning sequence of calls does: the geometry and the buffer length stay, the
polarity is flipped once per toggle, the trace is a concatenation of brackets. -/
theorem run_ops_sound (ord : BitFieldOrder) (fuel : Nat) :
    ∀ (ops : List Op) (inst inst1 : sharp_lcd_t) (trace : List Event),
      run_ops ord fuel inst ops = .ok (inst1, trace) →
      inst1.width = inst.width ∧ inst1.height = inst.height
        ∧ inst1.frame_buffer.length = inst.frame_buffer.length
        ∧ inst1.vcom = xor inst.vcom (decide (toggle_count ops % 2 = 1))
        ∧ ∃ bs : List (List (List Nat)), (∀ b ∈ bs, b ≠ []) ∧ trace = brackets bs := by
  intro ops
  induction ops with
  | nil =>
    intro inst inst1 trace h
    simp only [run_ops, Except.ok.injEq, Prod.mk.injEq] at h
    obtain ⟨h1, h2⟩ := h
    subst h1
    exact ⟨rfl, rfl, rfl, by simp [toggle_count], [], by simp, by simp [brackets, ← h2]⟩
  | cons op ops ih =>
    intro inst inst2 trace h
    unfold run_ops at h
    cases h1 : apply_op ord fuel inst op with
    | error e => simp [h1] at h
    | ok r1 =>
      obtain ⟨i1, t1⟩ := r1
      simp only [h1] at h
      cases h2 : run_ops ord fuel i1 ops with
      | error e => simp [h2] at h
      | ok r2 =>
        obtain ⟨i2, t2⟩ := r2
        simp only [h2, Except.ok.injEq, Prod.mk.injEq] at h
        obtain ⟨e1, e2⟩ := h
        subst e1
        obtain ⟨aw, ah, al, av, bs1, hb1, ht1⟩ := apply_op_sound ord fuel inst i1 op t1 h1
        obtain ⟨rw_, rh, rl, rv, bs2, hb2, ht2⟩ := ih i1 i2 t2 h2
        refine ⟨rw_.trans aw, rh.trans ah, rl.trans al, ?_, bs1 ++ bs2, ?_, ?_⟩
        · rw [rv, av, toggle_parity_cons]
        · intro b hb
          rcases List.mem_append.mp hb with hb | hb
          · exact hb1 b hb
          · exact hb2 b hb
        · rw [← e2, ht1, ht2]
          simp [brackets]

/-- A sequence of calls with valid coordinates on a well-formed panel returns. -/
theorem run_ops_returns (ord : BitFieldOrder) (fuel : Nat) :
    ∀ (ops : List Op) (inst : sharp_lcd_t), inst.width % 8 = 0 → inst.width < 65536 →
      inst.height ≤ 255 →
      inst.height < fuel → inst.frame_buffer.length = (inst.width / 8) * inst.height →
      ops.all (op_valid inst.width inst.height) = true →
      ∃ r, run_ops ord fuel inst ops = .ok r := by
  intro ops
  induction ops with
  | nil => intro inst _ _ _ _ _ _; exact ⟨_, rfl⟩
  | cons op ops ih =>
    intro inst hw hw16 hh hfuel hbuf hops
    simp only [List.all_cons, Bool.and_eq_true] at hops
    obtain ⟨⟨i1, t1⟩, h1⟩ := apply_op_returns ord fuel inst op hw hw16 hh hfuel hbuf hops.1
    obtain ⟨aw, ah, al, _, _⟩ := apply_op_sound ord fuel inst i1 op t1 h1
    obtain ⟨⟨i2, t2⟩, h2⟩ := ih i1 (by rw [aw]; exact hw) (by rw [aw]; exact hw16)
      (by rw [ah]; exact hh)
      (by rw [ah]; exact hfuel) (by rw [al, aw, ah]; exact hbuf) (by rw [aw, ah]; exact hops.2)
    exact ⟨(i2, t1 ++ t2), by simp [run_ops, h1, h2]⟩

/-- Row `i`, byte `j` and row `y`, byte `q` of a row-major buffer coincide only when `i = y`
and `j = q`. -/
theorem row_major_index_inj (c i j y q : Nat) (hj : j < c) (hq : q < c) :
    c * i + j = y * c + q ↔ i = y ∧ j = q := by
  constructor
  · intro h
    have hi : (c * i + j) / c = i := by
      rw [Nat.mul_comm, Nat.add_comm, Nat.add_mul_div_right _ _ (by omega), Nat.div_eq_of_lt hj,
        Nat.zero_add]
    have hy : (y * c + q) / c = y := by
      rw [Nat.add_comm, Nat.add_mul_div_right _ _ (by omega), Nat.div_eq_of_lt hq, Nat.zero_add]
    have hiy : i = y := by rw [← hi, ← hy, h]
    subst hiy
    refine ⟨rfl, ?_⟩
    rw [Nat.mul_comm] at h
    omega
  · rintro ⟨rfl, rfl⟩
    rw [Nat.mul_comm]

/-- The rows of an all-zero buffer in which one byte was replaced. -/
theorem row_bytes_spec_single (w n i y q v : Nat) (hq : q < w / 8) (hn : y * (w / 8) + q < n) :
    row_bytes_spec w ((List.replicate n 0).set (y * (w / 8) + q) v) i
      = (List.range (w / 8)).map (fun j => if i = y ∧ j = q then v else 0) := by
  unfold row_bytes_spec
  apply List.map_congr_left
  intro j hj
  have hjlt : j < w / 8 := List.mem_range.mp hj
  rw [List.getD_eq_getElem?_getD, List.getElem?_set]
  by_cases hc : i = y ∧ j = q
  · have he : y * (w / 8) + q = w / 8 * i + j :=
      ((row_major_index_inj (w / 8) i j y q hjlt hq).mpr hc).symm
    rw [if_pos he, if_pos hc]
    simp [hn]
  · have hne : ¬ (y * (w / 8) + q = w / 8 * i + j) := fun h =>
      hc ((row_major_index_inj (w / 8) i j y q hjlt hq).mp h.symm)
    rw [if_neg hne, if_neg hc]
    by_cases hk : w / 8 * i + j < n
    · simp [List.getElem?_replicate, hk]
    · simp [List.getElem?_replicate, hk]

/-! ## C11: the polarity flip -/

/-- C11 (confirmed).  For every descriptor and either bit-field order, one call of
`sharp_lcd_toggle_vcom` returns with `vcom` negated and `width`, `height` and the frame buffer
unchanged, and a second call returns the descriptor to its original value. -/
theorem toggle_vcom_involution (ord : BitFieldOrder) (inst : sharp_lcd_t) :
    ∃ inst1 trace1 trace2,
      sharp_lcd_toggle_vcom ord inst = .ok (inst1, trace1)
      ∧ inst1.vcom = !inst.vcom
      ∧ inst1.width = inst.width ∧ inst1.height = inst.height
      ∧ inst1.frame_buffer = inst.frame_buffer
      ∧ sharp_lcd_toggle_vcom ord inst1 = .ok (inst, trace2) := by
  obtain ⟨w, h, fb, v, spi⟩ := inst
  refine ⟨⟨w, h, fb, !v, spi⟩,
    [Event.cs true, Event.write [set_vcom_bit ord SHARP_LCD_COMMAND_VCOM (!v), 0],
      Event.cs false],
    [Event.cs true, Event.write [set_vcom_bit ord SHARP_LCD_COMMAND_VCOM v, 0],
      Event.cs false],
    rfl, rfl, rfl, rfl, rfl, ?_⟩
  simp [sharp_lcd_toggle_vcom]

/-! ## C12: who changes the polarity -/

/-- C12 (confirmed).  `vcom` is false after `sharp_lcd_init`; every returning call other than
`sharp_lcd_toggle_vcom` leaves `vcom`, `width` and `height` as they were; after any sequence
of calls that returns, `vcom` is true exactly when the number of toggle calls is odd and the
geometry is that given to `sharp_lcd_init`; and on a panel with a 16-bit width that is a
multiple of 8, at most 255 rows and a buffer of `(width/8) * height` bytes every sequence of
calls with valid pixel coordinates returns. -/
theorem vcom_flipped_only_by_toggle (ord : BitFieldOrder) (fuel : Nat)
    (spi : sharp_lcd_spi_interface_t) (width height : Nat) (frame_buffer : List Nat) :
    (sharp_lcd_init spi width height frame_buffer).vcom = false
    ∧ (∀ inst op inst1 trace, apply_op ord fuel inst op = .ok (inst1, trace) →
        op ≠ Op.toggle_vcom →
        inst1.vcom = inst.vcom ∧ inst1.width = inst.width ∧ inst1.height = inst.height)
    ∧ (∀ ops inst1 trace,
        run_ops ord fuel (sharp_lcd_init spi width height frame_buffer) ops = .ok (inst1, trace) →
        (inst1.vcom = true ↔ toggle_count ops % 2 = 1)
          ∧ inst1.width = width ∧ inst1.height = height)
    ∧ (width % 8 = 0 → width < 65536 → height ≤ 255 → height < fuel →
        frame_buffer.length = (width / 8) * height →
        ∀ ops, ops.all (op_valid width height) = true →
          ∃ r, run_ops ord fuel (sharp_lcd_init spi width height frame_buffer) ops = .ok r) := by
  refine ⟨rfl, ?_, ?_, ?_⟩
  · intro inst op inst1 trace h hne
    obtain ⟨hw, hh, _, hv, _⟩ := apply_op_sound ord fuel inst inst1 op trace h
    rw [if_neg hne] at hv
    exact ⟨hv, hw, hh⟩
  · intro ops inst1 trace h
    obtain ⟨hw, hh, _, hv, _⟩ := run_ops_sound ord fuel ops _ inst1 trace h
    refine ⟨?_, hw, hh⟩
    rw [hv]
    simp [sharp_lcd_init]
  · intro hw hw16 hh hfuel hbuf ops hops
    exact run_ops_returns ord fuel ops (sharp_lcd_init spi width height frame_buffer)
      hw hw16 hh hfuel hbuf hops

/-- C12 on an 8 x 2 panel: a sequence with three toggles returns. -/
theorem vcom_flipped_only_by_toggle_witness :
    8 % 8 = 0 ∧ 8 < 65536 ∧ 2 ≤ 255 ∧ 2 < 3 ∧ [0x00, 0x00].length = (8 / 8) * 2
      ∧ ∃ r, run_ops .lowToHigh 3 (sharp_lcd_init example_spi 8 2 [0x00, 0x00])
          [Op.toggle_vcom, Op.set_pixel 3 0 true, Op.draw, Op.clear_display, Op.toggle_vcom,
            Op.toggle_vcom] = .ok r :=
  ⟨by decide, by decide, by decide, by decide, rfl,
    (vcom_flipped_only_by_toggle .lowToHigh 3 example_spi 8 2 [0x00, 0x00]).2.2.2
      (by decide) (by decide) (by decide) (by decide) rfl _ (by decide)⟩

/-! ## C13: termination of the row loop -/

/-- C13 (code defect).  On the 8 x 256 panel `sharp_lcd_draw` does not return whatever the
fuel: the `uint8_t` counter wraps from 255 to 0 and never reaches the height 256. -/
theorem draw_height_256_never_returns :
    ∀ fuel, sharp_lcd_draw fuel panel_8x256 = .error .outOfFuel := by
  intro fuel
  have hbuf : panel_8x256.frame_buffer.length
      = (panel_8x256.width / 8) * panel_8x256.height := by
    show (List.replicate 256 0).length = (8 / 8) * 256
    rw [List.length_replicate]
  have h := draw_loop_out_of_fuel panel_8x256 (by decide) hbuf fuel 0
    [Event.cs true, Event.write [SHARP_LCD_COMMAND_WRITE]] (by norm_num)
  simp only [sharp_lcd_draw, h]
  rfl

/-! ## C14: a pixel on the wire -/

/-- C14 (confirmed).  For a 16-bit width that is a multiple of 8, a height of at most 255 and
a valid coordinate `(x, y)`: on the all-zero frame buffer `sharp_lcd_set_pixel(x, y, true)` returns,
and `sharp_lcd_draw` (given more fuel than `height`) then transmits the header, for every row
`i` the line number `i + 1`, a payload whose byte `j` is `1 << (x mod 8)` when `i = y` and
`j = x/8` and `0x00` otherwise, and the row trailer, and then the final trailer. -/
theorem set_pixel_then_draw (spi : sharp_lcd_spi_interface_t) (vcom : Bool)
    (w h x y fuel : Nat) (hw : w % 8 = 0) (hw16 : w < 65536) (hh : h ≤ 255) (hx : x < w)
    (hy : y < h) (hfuel : h < fuel) :
    ∃ inst1,
      sharp_lcd_set_pixel ⟨w, h, List.replicate ((w / 8) * h) 0x00, vcom, spi⟩ x y true
        = .ok (inst1, [])
      ∧ sharp_lcd_draw fuel inst1
        = .ok (inst1,
            [Event.cs true, Event.write [0x01]]
              ++ (List.range h).flatMap (fun i =>
                  [Event.write [i + 1],
                   Event.write ((List.range (w / 8)).map
                     (fun j => if i = y ∧ j = x / 8 then 1 <<< (x % 8) else 0x00)),
                   Event.write [0x00]])
              ++ [Event.write [0x00], Event.cs false]) := by
  have hq : x / 8 < w / 8 := by omega
  have hn : y * (w / 8) + x / 8 < (w / 8) * h := index_lt w h x y hw hx hy
  have hidx : SHARP_LCD_GET_X_Y_BUFFER_INDEX w x y = y * (w / 8) + x / 8 := index_eq w x y hw
  have hbit : (0 ||| (1 <<< (x % 8))) % 256 = 1 <<< (x % 8) := by
    have h8 : x % 8 < 8 := Nat.mod_lt _ (by norm_num)
    rw [Nat.zero_or, Nat.one_shiftLeft]
    apply Nat.mod_eq_of_lt
    calc 2 ^ (x % 8) < 2 ^ 8 := Nat.pow_lt_pow_right (by norm_num) h8
      _ = 256 := by norm_num
  have hget : (List.replicate ((w / 8) * h) 0)[y * (w / 8) + x / 8]? = some 0 := by
    simp [List.getElem?_replicate, hn]
  have hI : SHARP_LCD_GET_X_Y_BUFFER_INDEX_int32 w x y = some (y * (w / 8) + x / 8) := by
    rw [← hidx]; exact index_int32_small_panel w h x y hw16 hh hx hy
  have hset := set_pixel_active_eq ⟨w, h, List.replicate ((w / 8) * h) 0, vcom, spi⟩ x y
    (y * (w / 8) + x / 8) 0 hI hget
  rw [hbit] at hset
  refine ⟨_, hset, ?_⟩
  rw [sharp_lcd_draw_eq_spec _ fuel hh (by simp) hfuel]
  simp only [draw_trace_spec]
  have hrows : ∀ i, row_bytes_spec w
      ((List.replicate ((w / 8) * h) 0).set (y * (w / 8) + x / 8) (1 <<< (x % 8))) i
        = (List.range (w / 8)).map (fun j => if i = y ∧ j = x / 8 then 1 <<< (x % 8) else 0) :=
    fun i => row_bytes_spec_single w ((w / 8) * h) i y (x / 8) (1 <<< (x % 8)) hq hn
  have hfun : row_events_spec w
      ((List.replicate ((w / 8) * h) 0).set (y * (w / 8) + x / 8) (1 <<< (x % 8)))
        = fun i =>
            [Event.write [i + 1],
             Event.write ((List.range (w / 8)).map
               (fun j => if i = y ∧ j = x / 8 then 1 <<< (x % 8) else 0)),
             Event.write [0]] :=
    funext fun i => by simp only [row_events_spec, hrows]
  rw [hfun]

/-- C14 at width 8, height 2, pixel (3, 0): the bytes `01 01 08 00 02 00 00 00` between
`cs(true)` and `cs(false)`. -/
theorem set_pixel_then_draw_witness :
    8 % 8 = 0 ∧ 8 < 65536 ∧ 2 ≤ 255 ∧ 3 < 8 ∧ 0 < 2 ∧ 2 < 3
      ∧ ∃ inst1,
          sharp_lcd_set_pixel ⟨8, 2, [0x00, 0x00], false, example_spi⟩ 3 0 true
            = .ok (inst1, [])
          ∧ sharp_lcd_draw 3 inst1
            = .ok (inst1,
                [Event.cs true, Event.write [0x01],
                 Event.write [0x01], Event.write [0x08], Event.write [0x00],
                 Event.write [0x02], Event.write [0x00], Event.write [0x00],
                 Event.write [0x00], Event.cs false]) :=
  ⟨by decide, by decide, by decide, by decide, by decide, by decide,
    set_pixel_then_draw example_spi false 8 2 3 0 3 (by decide) (by decide) (by decide)
      (by decide) (by decide) (by decide)⟩

/-! ## C15: what `sharp_lcd_set_pixel` touches -/

/-- The frame of `sharp_lcd_set_pixel` where the index expression stays inside `int`: for a
width that is a multiple of 8, a valid coordinate with `x` a `uint16_t` value and
`y * width ≤ INT_MAX`, a frame buffer of `(width/8) * height` bytes and both values of
`active`, the call returns, makes no transport call, leaves every member but the buffer as it
was, and the new buffer has the same length and the same byte at every offset other than
`y*(width/8) + x/8`. -/
theorem set_pixel_frame_of_fits (inst : sharp_lcd_t) (x y : Nat) (active : Bool)
    (hw : inst.width % 8 = 0) (hx : x < inst.width) (hy : y < inst.height)
    (hbuf : inst.frame_buffer.length = (inst.width / 8) * inst.height)
    (hx16 : x < 65536) (hfit : y * inst.width ≤ INT_MAX) :
    ∃ buf,
      sharp_lcd_set_pixel inst x y active = .ok ({ inst with frame_buffer := buf }, [])
      ∧ buf.length = inst.frame_buffer.length
      ∧ ∀ k, k ≠ y * (inst.width / 8) + x / 8 → buf[k]? = inst.frame_buffer[k]? := by
  have hidx := index_eq inst.width x y hw
  have hI := index_int32_fits inst.width x y hfit hx16
  have hlt : SHARP_LCD_GET_X_Y_BUFFER_INDEX inst.width x y < inst.frame_buffer.length := by
    rw [hidx, hbuf]; exact index_lt _ _ _ _ hw hx hy
  obtain ⟨v, hv, _⟩ := set_pixel_in_bounds inst x y _ active hI hlt
  refine ⟨_, hv, by simp, ?_⟩
  intro k hk
  rw [hidx, List.getElem?_set]
  simp [Ne.symm hk]

/-- C15 (code defect).  On the 65528 x 65535 panel the coordinate (0, 32773) is valid, yet
for both values of `active` and whatever the frame buffer holds `sharp_lcd_set_pixel` has no
defined effect confined to the byte at offset 268443643: the product `y * width` overflows
`int`. -/
theorem set_pixel_frame_index_overflows :
    65528 % 8 = 0 ∧ 0 < 65528 ∧ 32773 < 65535 ∧ INT_MAX < 32773 * 65528
      ∧ ∀ (frame_buffer : List Nat) (active : Bool),
          sharp_lcd_set_pixel (panel_65528x65535 frame_buffer) 0 32773 active
            = .error .intOverflow :=
  ⟨by decide, by decide, by decide, by decide,
    fun frame_buffer active =>
      set_pixel_overflow (panel_65528x65535 frame_buffer) 0 32773 active
        index_int32_none_65528_32773⟩

/-! ## C16: chip-select brackets -/

/-- C16 (confirmed).  The trace of every sequence of calls that returns is a concatenation of
brackets `cs(true)`, one or more writes, `cs(false)`, so it obeys the chip-select discipline:
the line is released at the end, no write is made while it is released and `cs(true)` is not
repeated while it is asserted.  On a panel with a 16-bit width that is a multiple of 8, at
most 255 rows and a buffer of `(width/8) * height` bytes every sequence of calls with valid
pixel coordinates returns. -/
theorem traces_are_cs_brackets (ord : BitFieldOrder) (fuel : Nat) (inst : sharp_lcd_t) :
    (∀ ops inst1 trace, run_ops ord fuel inst ops = .ok (inst1, trace) →
        (∃ bs : List (List (List Nat)), (∀ b ∈ bs, b ≠ []) ∧ trace = brackets bs)
          ∧ cs_discipline false trace = true)
    ∧ (inst.width % 8 = 0 → inst.width < 65536 → inst.height ≤ 255 → inst.height < fuel →
        inst.frame_buffer.length = (inst.width / 8) * inst.height →
        ∀ ops, ops.all (op_valid inst.width inst.height) = true →
          ∃ r, run_ops ord fuel inst ops = .ok r) := by
  refine ⟨?_, ?_⟩
  · intro ops inst1 trace h
    obtain ⟨_, _, _, _, bs, hbs, ht⟩ := run_ops_sound ord fuel ops inst inst1 trace h
    exact ⟨⟨bs, hbs, ht⟩, by rw [ht]; exact cs_discipline_brackets bs⟩
  · intro hw hw16 hh hfuel hbuf ops hops
    exact run_ops_returns ord fuel ops inst hw hw16 hh hfuel hbuf hops

/-- C16 on the 8 x 2 panel: clear, set a pixel, draw, toggle returns, and the trace that
results consists of three brackets. -/
theorem traces_are_cs_brackets_witness :
    panel_8x2.width % 8 = 0 ∧ panel_8x2.width < 65536 ∧ panel_8x2.height ≤ 255
      ∧ panel_8x2.height < 3
      ∧ panel_8x2.frame_buffer.length = (panel_8x2.width / 8) * panel_8x2.height
      ∧ (∃ r, run_ops .lowToHigh 3 panel_8x2
          [Op.clear_display, Op.set_pixel 3 0 true, Op.draw, Op.toggle_vcom] = .ok r)
      ∧ cs_discipline false
          [Event.cs true, Event.write [0x04, 0x00], Event.cs false,
           Event.cs true, Event.write [0x01],
           Event.write [0x01], Event.write [0x08], Event.write [0x00],
           Event.write [0x02], Event.write [0x00], Event.write [0x00],
           Event.write [0x00], Event.cs false,
           Event.cs true, Event.write [0x42, 0x00], Event.cs false] = true :=
  ⟨by decide, by decide, by decide, by decide, rfl,
    (traces_are_cs_brackets .lowToHigh 3 panel_8x2).2 (by decide) (by decide) (by decide)
      (by decide) rfl _ (by decide),
    ((traces_are_cs_brackets .lowToHigh 3 panel_8x2).1
      [Op.clear_display, Op.set_pixel 3 0 true, Op.draw, Op.toggle_vcom]
      ⟨8, 2, [0x08, 0x00], true, example_spi⟩ _ rfl).2⟩

/-! ## C17: coordinates out of range -/

/-- C17 as stated fails: on the 8 x 2 panel with an all-zero buffer the coordinate (8, 0) has
`x = width`, and `sharp_lcd_set_pixel(8, 0, true)` returns with byte 1 changed to `0x01`. -/
theorem out_of_range_pixel_is_written :
    ¬ (8 < (sharp_lcd_init example_spi 8 2 [0x00, 0x00]).width)
      ∧ sharp_lcd_set_pixel (sharp_lcd_init example_spi 8 2 [0x00, 0x00]) 8 0 true
          = .ok (sharp_lcd_init example_spi 8 2 [0x00, 0x01], [])
      ∧ [0x00, 0x01] ≠ [0x00, 0x00] :=
  ⟨by decide, rfl, by decide⟩

/-- C17 (corrected).  `sharp_lcd_set_pixel` makes no range check.  For an out-of-range
coordinate with `x` a `uint16_t` value and `y * width ≤ INT_MAX`: when the index
`(y * width / 8) + (x / 8)` lies inside the frame buffer the call returns, makes no transport
call, leaves `width`, `height`, `vcom` and the SPI interface as they were and replaces the
one byte at that index (by `old | (1 << x % 8)` when active); when the index lies outside the
buffer the access is out of bounds. -/
theorem set_pixel_out_of_range (inst : sharp_lcd_t) (x y : Nat) (active : Bool)
    (_hout : inst.width ≤ x ∨ inst.height ≤ y)
    (hx16 : x < 65536) (hfit : y * inst.width ≤ INT_MAX) :
    (SHARP_LCD_GET_X_Y_BUFFER_INDEX inst.width x y < inst.frame_buffer.length →
      ∃ v, sharp_lcd_set_pixel inst x y active
          = .ok ({ inst with frame_buffer :=
                    (inst.frame_buffer.set (SHARP_LCD_GET_X_Y_BUFFER_INDEX inst.width x y) v) },
                [])
        ∧ (active = true →
            v = (inst.frame_buffer.getD (SHARP_LCD_GET_X_Y_BUFFER_INDEX inst.width x y) 0
                  ||| (1 <<< (x % 8))) % 256))
    ∧ (inst.frame_buffer.length ≤ SHARP_LCD_GET_X_Y_BUFFER_INDEX inst.width x y →
        sharp_lcd_set_pixel inst x y active = .error .outOfBounds) :=
  ⟨set_pixel_in_bounds inst x y _ active (index_int32_fits inst.width x y hfit hx16),
    set_pixel_out_of_bounds inst x y _ active (index_int32_fits inst.width x y hfit hx16)⟩

/-- C17 amended, at the 8 x 2 panel: (8, 0) lands inside the buffer, (0, 2) outside. -/
theorem set_pixel_out_of_range_witness :
    (panel_8x2.width ≤ 8 ∨ panel_8x2.height ≤ 0)
      ∧ 8 < 65536 ∧ 0 * panel_8x2.width ≤ INT_MAX
      ∧ (∃ v, sharp_lcd_set_pixel panel_8x2 8 0 true
            = .ok ({ panel_8x2 with frame_buffer := panel_8x2.frame_buffer.set 1 v }, [])
          ∧ (true = true → v = (panel_8x2.frame_buffer.getD 1 0 ||| (1 <<< (8 % 8))) % 256))
      ∧ sharp_lcd_set_pixel panel_8x2 0 2 true = .error .outOfBounds :=
  ⟨by decide, by decide, by decide,
    (set_pixel_out_of_range panel_8x2 8 0 true (by decide) (by decide) (by decide)).1
      (by decide),
    (set_pixel_out_of_range panel_8x2 0 2 true (by decide) (by decide) (by decide)).2
      (by decide)⟩

/-! ## C18, C19: buffer size and index range -/

/-- C18 (code defect).  For the 8 x 8 panel the header macro reports 1 byte.  With a buffer of
that size the valid pixel (0, 1) has byte index 1, so `sharp_lcd_set_pixel` accesses the
buffer out of bounds, and `sharp_lcd_draw` reads row 1 out of bounds. -/
theorem macro_sized_buffer_too_small :
    SHARP_LCD_CALC_BUFFER_SIZE 8 8 = 1
      ∧ panel_8x8_macro_sized.frame_buffer.length = SHARP_LCD_CALC_BUFFER_SIZE 8 8
      ∧ (pixel_location 8 0 1).1 = 1
      ∧ sharp_lcd_set_pixel panel_8x8_macro_sized 0 1 true = .error .outOfBounds
      ∧ SHARP_LCD_GET_LINE_OFFSET 8 1 + SHARP_LCD_LINE_SIZE_BYTES 8 = 2
      ∧ sharp_lcd_draw 9 panel_8x8_macro_sized = .error .outOfBounds :=
  ⟨by decide, rfl, by decide, rfl, by decide, rfl⟩

/-- When the product `y * width` fits in `int` the macro evaluated in `int` gives the
specified offset. -/
theorem index_int32_eq (width x y : Nat) (hw : width % 8 = 0) (hx : x < 65536)
    (h : y * width ≤ INT_MAX) :
    SHARP_LCD_GET_X_Y_BUFFER_INDEX_int32 width x y = some (y * (width / 8) + x / 8) := by
  have h2 : y * width / 8 + x / 8 ≤ INT_MAX := by
    unfold INT_MAX at *
    omega
  unfold SHARP_LCD_GET_X_Y_BUFFER_INDEX_int32
  rw [if_pos h, if_pos h2, Nat.mul_div_assoc y (Nat.dvd_of_mod_eq_zero hw)]

/-- C19 (code defect).  For width 65528 (a multiple of 8), height 65535 and the valid
coordinate (0, 32773) the product `y * width` is 2147549144, above `2^31 - 1`: the index
expression overflows `int`. -/
theorem index_product_overflows_int :
    65528 % 8 = 0 ∧ 65528 < 65536 ∧ 0 < 65528 ∧ 32773 < 65535
      ∧ 32773 * 65528 = 2147549144
      ∧ INT_MAX = 2 ^ 31 - 1
      ∧ INT_MAX < 32773 * 65528
      ∧ SHARP_LCD_GET_X_Y_BUFFER_INDEX_int32 65528 0 32773 = none := by
  decide

end SharpLcd
